import Mathlib

/-!
Verification development for the ai-coder repository.

The definitions below are shallow embeddings of the Rust sources:
  * src/agent.rs   - block extraction (extract_commands), the approval /
    execution loop (extract_and_execute_commands) and execute_bash;
  * src/main.rs    - the streaming decode loop and its OllamaResponse record;
  * src/ollama.rs  - the OllamaResponse record with the optional error field;
  * src/runtime.rs - CompletionRequest::validate, LocalRuntime::generate and
    LocalRuntime::generate_stream;
  * src/model.rs   - ModelProfile::validate.

Strings are modelled as `List Char` (Rust `str` slices are valid UTF-8, so a
byte-faithful model coincides with the character-level one everywhere the
claims look; the one byte-level quantity, `prompt.len()`, is modelled by the
UTF-8 size of the characters).
-/

/-- Rust `char::is_whitespace`: the Unicode White_Space property. -/
def isRustWhitespace (c : Char) : Bool :=
  c.toNat = 0x9 ∨ c.toNat = 0xA ∨ c.toNat = 0xB ∨ c.toNat = 0xC ∨ c.toNat = 0xD ∨
  c.toNat = 0x20 ∨ c.toNat = 0x85 ∨ c.toNat = 0xA0 ∨ c.toNat = 0x1680 ∨
  (0x2000 ≤ c.toNat ∧ c.toNat ≤ 0x200A) ∨
  c.toNat = 0x2028 ∨ c.toNat = 0x2029 ∨ c.toNat = 0x202F ∨ c.toNat = 0x205F ∨
  c.toNat = 0x3000

/-- Left half of Rust `str::trim`. -/
def trimLeftWs (s : List Char) : List Char := s.dropWhile isRustWhitespace

/-- Right half of Rust `str::trim`: remove the trailing whitespace run. -/
def trimRightWs : List Char → List Char
  | [] => []
  | c :: cs =>
    let r := trimRightWs cs
    if r.isEmpty then (if isRustWhitespace c then [] else [c]) else c :: r

/-- Rust `str::trim`. -/
def rustTrim (s : List Char) : List Char := trimLeftWs (trimRightWs s)

/-- Rust `s.split_whitespace().next().unwrap_or("")`: the first
whitespace-delimited token of `s`, or the empty string. -/
def firstToken (s : List Char) : List Char :=
  (s.dropWhile isRustWhitespace).takeWhile (fun c => !isRustWhitespace c)

/-- The three-backtick fence marker. -/
def backticks3 : List Char := "```".data

/-- Rust `line.trim().starts_with("```")` from agent.rs / main.rs. -/
def isFenceLine (l : List Char) : Bool := backticks3.isPrefixOf (rustTrim l)

/-- Rust `line.trim().strip_prefix("```").unwrap_or("")` from agent.rs:42-82:
drop the backtick fence from the (already trimmed) line. -/
def stripTicks (s : List Char) : List Char :=
  if backticks3.isPrefixOf s then s.drop 3 else []

/-- Rust `s.split_inclusive('\n')`: split into segments, each segment keeping
its terminating newline; the final segment may lack one. -/
def splitInclusiveNl : List Char → List (List Char)
  | [] => []
  | c :: cs =>
    if c = '\n' then [c] :: splitInclusiveNl cs
    else
      match splitInclusiveNl cs with
      | [] => [[c]]
      | seg :: rest => (c :: seg) :: rest

/-- `strip_suffix(c)` on a character list. -/
def stripSuffixChar (c : Char) (l : List Char) : Option (List Char) :=
  if l.getLast? = some c then some l.dropLast else none

/-- The per-line map of Rust `str::lines`: remove a trailing `\n`, and only
then a trailing `\r` (a carriage return not followed by a newline stays). -/
def stripLineEnd (l : List Char) : List Char :=
  match stripSuffixChar '\n' l with
  | none => l
  | some l' =>
    match stripSuffixChar '\r' l' with
    | none => l'
    | some l'' => l''

/-- Rust `str::lines` on a character list. -/
def rustLines (s : List Char) : List (List Char) :=
  (splitInclusiveNl s).map stripLineEnd

/-- The tag test of agent.rs:56-57: the first whitespace-delimited token of
the recorded language string is empty, exactly "bash", or exactly "sh". -/
def isShellToken (lang : List Char) : Bool :=
  let tok := firstToken lang
  tok.isEmpty || tok == "bash".data || tok == "sh".data

/-- The scanning loop of `extract_commands` (agent.rs:42-82), with the state
variables `in_code_block`, `language` and `code_block` made explicit.  A fence
line closes an open block (pushing its content when the tag passes
`isShellToken`) or opens a new one recording the tag; any other line inside a
block is appended together with a newline; end of input inside a block emits
the pending content under the same tag test (agent.rs:74-79). -/
def extractLoop : List (List Char) → Bool → List Char → List Char → List (List Char)
  | [], inside, lang, acc =>
    if inside && isShellToken lang then [acc] else []
  | l :: ls, inside, lang, acc =>
    if isFenceLine l then
      if inside then
        (if isShellToken lang then [acc] else []) ++ extractLoop ls false [] []
      else
        extractLoop ls true (stripTicks (rustTrim l)) acc
    else if inside then
      extractLoop ls inside lang (acc ++ l ++ ['\n'])
    else
      extractLoop ls inside lang acc

/-- `extract_commands` from agent.rs:42-82. -/
def extract_commands (response : String) : List String :=
  (extractLoop (rustLines response.data) false [] []).map String.mk

example : extract_commands "Here is a command:\n```bash\necho hello\n```" = ["echo hello\n"] := by decide
example : extract_commands "Here is a command:\n```sh\necho hello\n```" = ["echo hello\n"] := by decide
example : extract_commands "Here is a command:\n```\necho hello\n```" = ["echo hello\n"] := by decide
example : extract_commands "Here is some rust code:\n```rust\nfn main() \x7b\x7d\n```" = [] := by decide
example : extract_commands "First:\n```bash\necho one\n```\nSecond:\n```sh\necho two\n```" = ["echo one\n", "echo two\n"] := by decide
example : extract_commands "Empty:\n```bash\n```" = [""] := by decide
example : extract_commands "  ```bash  \necho spaced\n  ```  " = ["echo spaced\n"] := by decide
example : extract_commands "Run this:\n```bash\necho no-close" = ["echo no-close\n"] := by decide
example : extract_commands "```fish\necho should-not-run\n```" = [] := by decide

/-- Spec-side tag test (section 4.3 of the design): emit "only if the tag is
empty, or its first whitespace-delimited token is exactly bash or exactly sh
(case-sensitive)". -/
def shellTag (tag : List Char) : Bool :=
  tag.isEmpty || firstToken tag == "bash".data || firstToken tag == "sh".data

/-- Spec-side scanner (section 4.3 of the design): the same two-state machine
over the lines, but emitting every fenced block as a pair of its language tag
(the remainder of the trimmed opening fence line after the three backticks,
whitespace-trimmed) and its accumulated content, an unterminated final block
included.  This enumerates the "N fenced blocks" of the claims. -/
def scanLoop : List (List Char) → Bool → List Char → List Char → List (List Char × List Char)
  | [], inside, tag, acc =>
    if inside then [(tag, acc)] else []
  | l :: ls, inside, tag, acc =>
    if isFenceLine l then
      if inside then
        (tag, acc) :: scanLoop ls false [] []
      else
        scanLoop ls true (rustTrim (stripTicks (rustTrim l))) acc
    else if inside then
      scanLoop ls inside tag (acc ++ l ++ ['\n'])
    else
      scanLoop ls inside tag acc

/-- All fenced blocks of a response, in document order, with their tags. -/
def scanBlocks (response : String) : List (List Char × List Char) :=
  scanLoop (rustLines response.data) false [] []

theorem dropWhile_dropWhile_self {p : Char → Bool} (s : List Char) :
    (s.dropWhile p).dropWhile p = s.dropWhile p := by
  induction s with
  | nil => rfl
  | cons c cs ih =>
    by_cases h : p c
    · simp [List.dropWhile, h, ih]
    · simp [List.dropWhile, h]

theorem firstToken_trimLeftWs (s : List Char) :
    firstToken (trimLeftWs s) = firstToken s := by
  simp [firstToken, trimLeftWs, dropWhile_dropWhile_self]

theorem trimRightWs_nil_all_ws {s : List Char} (h : trimRightWs s = []) :
    s.all isRustWhitespace = true := by
  induction s with
  | nil => rfl
  | cons c cs ih =>
    simp only [trimRightWs] at h
    by_cases hr : (trimRightWs cs).isEmpty
    · by_cases hc : isRustWhitespace c
      · simp only [List.all_cons, hc, Bool.true_and]
        exact ih (List.isEmpty_iff.mp hr)
      · simp [hr, hc] at h
    · simp [hr] at h

theorem takeWhile_all_ws {s : List Char} (h : s.all isRustWhitespace = true) :
    s.takeWhile (fun c => !isRustWhitespace c) = [] := by
  cases s with
  | nil => rfl
  | cons c cs =>
    simp only [List.all_cons, Bool.and_eq_true] at h
    simp [List.takeWhile, h.1]

theorem dropWhile_all_ws {s : List Char} (h : s.all isRustWhitespace = true) :
    s.dropWhile isRustWhitespace = [] := by
  induction s with
  | nil => rfl
  | cons c cs ih =>
    simp only [List.all_cons, Bool.and_eq_true] at h
    simp [List.dropWhile, h.1, ih h.2]

theorem takeWhile_trimRightWs (s : List Char) :
    (trimRightWs s).takeWhile (fun c => !isRustWhitespace c) =
      s.takeWhile (fun c => !isRustWhitespace c) := by
  induction s with
  | nil => rfl
  | cons c cs ih =>
    simp only [trimRightWs]
    by_cases hr : (trimRightWs cs).isEmpty
    · have hws := trimRightWs_nil_all_ws (List.isEmpty_iff.mp hr)
      by_cases hc : isRustWhitespace c
      · simp [hr, hc, List.takeWhile]
      · simp [hr, hc, List.takeWhile, takeWhile_all_ws hws]
    · by_cases hc : isRustWhitespace c
      · simp [hr, List.takeWhile, hc]
      · simp [hr, List.takeWhile, hc, ih]

theorem dropWhile_head_false {p : Char → Bool} :
    ∀ {s c t}, List.dropWhile p s = c :: t → p c = false := by
  intro s
  induction s with
  | nil => intro c t h; cases h
  | cons a as ih =>
    intro c t h
    by_cases ha : p a
    · exact ih (by simpa [List.dropWhile, ha] using h)
    · simp only [List.dropWhile, ha, if_neg] at h
      rcases List.cons.injEq .. ▸ h with ⟨rfl, -⟩
      simpa using ha

theorem dropWhile_trimRightWs (s : List Char) :
    (trimRightWs s).dropWhile isRustWhitespace =
      trimRightWs (s.dropWhile isRustWhitespace) := by
  induction s with
  | nil => rfl
  | cons c cs ih =>
    simp only [trimRightWs]
    by_cases hr : (trimRightWs cs).isEmpty
    · have hws := trimRightWs_nil_all_ws (List.isEmpty_iff.mp hr)
      by_cases hc : isRustWhitespace c
      · simp [hr, hc, List.dropWhile, dropWhile_all_ws hws, trimRightWs]
      · simp [hr, hc, List.dropWhile, trimRightWs, List.isEmpty_iff.mp hr]
    · by_cases hc : isRustWhitespace c
      · simp [hr, List.dropWhile, hc, ih]
      · simp [hr, List.dropWhile, hc, trimRightWs]

theorem firstToken_trimRightWs (s : List Char) :
    firstToken (trimRightWs s) = firstToken s := by
  simp only [firstToken, dropWhile_trimRightWs, takeWhile_trimRightWs]

theorem firstToken_rustTrim (s : List Char) :
    firstToken (rustTrim s) = firstToken s := by
  simp [rustTrim, firstToken_trimLeftWs, firstToken_trimRightWs]

theorem rustTrim_nil_iff_firstToken_nil (s : List Char) :
    (rustTrim s = []) ↔ (firstToken s = []) := by
  constructor
  · intro h
    have h1 := firstToken_rustTrim s
    rw [h] at h1
    exact h1.symm
  · intro h
    have hu : s.dropWhile isRustWhitespace = [] := by
      rcases hd : s.dropWhile isRustWhitespace with _ | ⟨c, t⟩
      · rfl
      · exfalso
        have hc := dropWhile_head_false hd
        unfold firstToken at h
        rw [hd] at h
        simp [List.takeWhile, hc] at h
    have h2 := dropWhile_trimRightWs s
    simp only [rustTrim, trimLeftWs, h2, hu]
    rfl

/-- The tag test applied by agent.rs to the raw recorded language string
agrees with the spec-side test applied to the trimmed tag. -/
theorem isShellToken_eq_shellTag (lang : List Char) :
    isShellToken lang = shellTag (rustTrim lang) := by
  simp only [isShellToken, shellTag, firstToken_rustTrim]
  rcases h : firstToken lang with _ | ⟨c, t⟩
  · have h0 : rustTrim lang = [] := (rustTrim_nil_iff_firstToken_nil lang).mpr h
    simp [h0]
  · have hne : (rustTrim lang).isEmpty = false := by
      rcases h0 : rustTrim lang with _ | _
      · exfalso
        have h1 := (rustTrim_nil_iff_firstToken_nil lang).mp h0
        rw [h] at h1
        exact absurd h1 (by simp)
      · rfl
    simp [hne]

/-- Core refinement: the extractor of agent.rs is exactly the shell-tag filter
of the spec-side scan, for every reachable pair of states (the scan state
carries the trimmed tag). -/
theorem extractLoop_eq_filter_scanLoop (ls : List (List Char)) :
    ∀ (inside : Bool) (lang acc : List Char),
      extractLoop ls inside lang acc =
        ((scanLoop ls inside (rustTrim lang) acc).filter
          (fun b => shellTag b.1)).map (fun b => b.2) := by
  induction ls with
  | nil =>
    intro inside lang acc
    cases inside with
    | false => simp [extractLoop, scanLoop]
    | true =>
      simp only [extractLoop, scanLoop, Bool.true_and, if_true]
      rw [isShellToken_eq_shellTag]
      by_cases h : shellTag (rustTrim lang)
      · simp [h, List.filter]
      · simp [h, List.filter]
  | cons l ls ih =>
    intro inside lang acc
    have hnil : rustTrim ([] : List Char) = [] := rfl
    by_cases hf : isFenceLine l
    · cases inside with
      | true =>
        simp only [extractLoop, scanLoop, hf, if_true]
        rw [isShellToken_eq_shellTag]
        have ih0 := ih false [] []
        rw [hnil] at ih0
        by_cases h : shellTag (rustTrim lang)
        · simp [h, List.filter_cons, ih0]
        · simp [h, List.filter_cons, ih0]
      | false =>
        simp only [extractLoop, scanLoop, hf, if_true]
        exact ih true (stripTicks (rustTrim l)) acc
    · cases inside with
      | true => simpa [extractLoop, scanLoop, hf] using ih true lang (acc ++ l ++ ['\n'])
      | false => simpa [extractLoop, scanLoop, hf] using ih false lang acc

/-- The `in_code_block` flag of the scanner after consuming the given lines
(agent.rs:44,51-53,64-65): toggled by every fence line. -/
def inBlockAfter : List (List Char) → Bool → Bool
  | [], inside => inside
  | l :: ls, inside => inBlockAfter ls (if isFenceLine l then !inside else inside)

/-- Closing an unterminated block explicitly with a final fence line changes
nothing: ending inside a block behaves exactly like an explicit close. -/
theorem extractLoop_append_fence (ls : List (List Char)) :
    ∀ (inside : Bool) (lang acc : List Char), inBlockAfter ls inside = true →
      extractLoop (ls ++ [backticks3]) inside lang acc = extractLoop ls inside lang acc := by
  have hfence : isFenceLine backticks3 = true := by decide
  induction ls with
  | nil =>
    intro inside lang acc h
    simp only [inBlockAfter] at h
    subst h
    simp [extractLoop, hfence]
  | cons l ls ih =>
    intro inside lang acc h
    simp only [inBlockAfter] at h
    by_cases hf : isFenceLine l
    · cases inside with
      | true =>
        simp only [List.cons_append, extractLoop, hf, if_true, List.append_eq]
        rw [ih false [] [] (by simpa [hf] using h)]
      | false =>
        simp only [List.cons_append, extractLoop, hf, if_true, List.append_eq]
        exact ih true (stripTicks (rustTrim l)) acc (by simpa [hf] using h)
    · cases inside with
      | true =>
        simp only [List.cons_append, extractLoop, hf, List.append_eq]
        exact ih true lang (acc ++ l ++ ['\n']) (by simpa [hf] using h)
      | false =>
        simp only [List.cons_append, extractLoop, hf, List.append_eq]
        exact ih false lang acc (by simpa [hf] using h)

/-- Inside a shell-tagged block, every interior (non-fence) line is copied
verbatim followed by one newline, up to the closing fence. -/
theorem extractLoop_body_content (body : List (List Char)) :
    ∀ (lang acc : List Char), (∀ l ∈ body, isFenceLine l = false) →
      isShellToken lang = true →
      extractLoop (body ++ [backticks3]) true lang acc =
        [acc ++ (body.map (fun l => l ++ ['\n'])).flatten] := by
  have hfence : isFenceLine backticks3 = true := by decide
  induction body with
  | nil =>
    intro lang acc _ hsh
    simp [extractLoop, hfence, hsh]
  | cons l body ih =>
    intro lang acc hbody hsh
    have hl : isFenceLine l = false := hbody l (by simp)
    simp only [List.cons_append, extractLoop, hl, Bool.false_eq_true, if_false, if_true,
      List.append_eq]
    rw [ih lang (acc ++ l ++ ['\n']) (fun x hx => hbody x (by simp [hx])) hsh]
    simp

/-- A string is newline-terminated (or empty). -/
def endsNl (s : List Char) : Prop := s = [] ∨ ∃ t, s = t ++ ['\n']

/-- Every string emitted by the scanning loop is empty or newline-terminated,
given the accumulator is. -/
theorem extractLoop_endsNl (ls : List (List Char)) :
    ∀ (inside : Bool) (lang acc : List Char), endsNl acc →
      ∀ s ∈ extractLoop ls inside lang acc, endsNl s := by
  induction ls with
  | nil =>
    intro inside lang acc hacc s hs
    simp only [extractLoop] at hs
    by_cases h : inside && isShellToken lang
    · simp [h] at hs
      subst hs
      exact hacc
    · simp [h] at hs
  | cons l ls ih =>
    intro inside lang acc hacc s hs
    by_cases hf : isFenceLine l
    · cases inside with
      | true =>
        simp only [extractLoop, hf, if_true] at hs
        rcases List.mem_append.mp hs with h1 | h2
        · by_cases h : isShellToken lang
          · simp [h] at h1
            subst h1
            exact hacc
          · simp [h] at h1
        · exact ih false [] [] (Or.inl rfl) s h2
      | false =>
        simp only [extractLoop, hf, if_true] at hs
        exact ih true (stripTicks (rustTrim l)) acc hacc s hs
    · cases inside with
      | true =>
        simp only [extractLoop, hf] at hs
        exact ih true lang (acc ++ l ++ ['\n'])
          (Or.inr ⟨acc ++ l, by simp⟩) s hs
      | false =>
        simp only [extractLoop, hf] at hs
        exact ih false lang acc hacc s hs

/-- ASCII lower-casing of one character (Rust `u8::to_ascii_lowercase`,
lifted to chars; multi-byte characters are unaffected in both views). -/
def asciiLower (c : Char) : Char :=
  if 'A' ≤ c ∧ c ≤ 'Z' then Char.ofNat (c.toNat + 32) else c

/-- Rust `str::eq_ignore_ascii_case`. -/
def eqIgnoreAsciiCase (a b : List Char) : Bool :=
  a.map asciiLower == b.map asciiLower

/-- A subprocess exit status; `code = none` models abnormal termination (no
exit code).  Rust `ExitStatus::success()` is `code = some 0`. -/
structure ExitStat where
  code : Option Int
deriving DecidableEq

/-- An I/O error message, as carried by `Box<dyn Error>`. -/
abbrev IOErr : Type := List Char

/-- The observable outcome of the approval / execution loop of
`extract_and_execute_commands` (agent.rs:16-39):
  * `offered`  - blocks printed and put before the approval gate, in order;
  * `attempts` - scripts for which a `bash -c` subprocess launch was
    attempted, in order;
  * `reports`  - per successfully launched script, the success flag printed
    by `execute_bash` (agent.rs:89-96);
  * `stdinLeft` - the interactive input lines not yet consumed;
  * `err`      - `some e` when the loop aborted by propagating error `e`
    (the `?` on `execute_bash` at agent.rs:36), `none` when it finished. -/
structure RunOutcome where
  offered : List (List Char)
  attempts : List (List Char)
  reports : List (List Char × Bool)
  stdinLeft : List (List Char)
  err : Option IOErr
deriving DecidableEq

/-- One blocking `read_line` from the modelled interactive input: at end of
input Rust returns `Ok(0)` leaving the buffer empty. -/
def readLine : List (List Char) → List Char × List (List Char)
  | [] => ([], [])
  | l :: rest => (l, rest)

/-- `execute_bash` (agent.rs:85-99) against a subprocess oracle `world`
mapping a script to its launch result: a launch failure is propagated (the
`?` on `.status()` at agent.rs:87); otherwise the function reports
`status.success()` and returns `Ok(())`. -/
def execute_bash (world : List Char → Except IOErr ExitStat) (script : List Char) :
    Except IOErr Bool :=
  match world script with
  | Except.error e => Except.error e
  | Except.ok st => Except.ok (st.code == some 0)

/-- Executing one approved block inside the loop: launch failure aborts the
whole run (remaining blocks are dropped); otherwise the report is recorded
and the loop continues with the rest of the outcome. -/
def execStep (world : List Char → Except IOErr ExitStat) (b : List Char)
    (stdinNow : List (List Char)) (rest : RunOutcome) : RunOutcome :=
  match world b with
  | Except.error e => ⟨[b], [b], [], stdinNow, some e⟩
  | Except.ok st =>
    ⟨b :: rest.offered, b :: rest.attempts, (b, st.code == some 0) :: rest.reports,
      rest.stdinLeft, rest.err⟩

/-- The per-block loop of `extract_and_execute_commands` (agent.rs:18-37):
each block is printed (offered); with the interactive policy one line is read
and the block runs only when its trimmed content equals "y" up to ASCII case
(agent.rs:24-33); with auto-approve no read happens at all. -/
def runBlocks (world : List Char → Except IOErr ExitStat) :
    List (List Char) → Bool → List (List Char) → RunOutcome
  | [], _, stdin => ⟨[], [], [], stdin, none⟩
  | b :: bs, autoApprove, stdin =>
    if autoApprove then
      execStep world b stdin (runBlocks world bs autoApprove stdin)
    else
      let (input, rest) := readLine stdin
      if eqIgnoreAsciiCase (rustTrim input) ['y'] then
        execStep world b rest (runBlocks world bs autoApprove rest)
      else
        let o := runBlocks world bs autoApprove rest
        { o with offered := b :: o.offered }

/-- `extract_and_execute_commands` (agent.rs:6-40), as the observable outcome
of running the loop over the extracted blocks.  The `allow_unsafe_exec` flag
only selects a warning message and is irrelevant to the outcome. -/
def extract_and_execute_commands (world : List Char → Except IOErr ExitStat)
    (response : String) (autoApprove : Bool) (stdin : List (List Char)) : RunOutcome :=
  runBlocks world (extractLoop (rustLines response.data) false [] []) autoApprove stdin

/-- Only blocks of the extracted list are ever offered to the approval gate. -/
theorem runBlocks_offered_sub (world : List Char → Except IOErr ExitStat)
    (bs : List (List Char)) : ∀ (autoApprove : Bool) (stdin : List (List Char))
      (b : List Char), b ∈ (runBlocks world bs autoApprove stdin).offered → b ∈ bs := by
  induction bs with
  | nil => intro auto stdin b h; simp [runBlocks] at h
  | cons x bs ih =>
    intro auto stdin b h
    by_cases ha : auto
    · subst ha
      simp only [runBlocks, if_true] at h
      unfold execStep at h
      rcases hw : world x with e | st <;> rw [hw] at h
      · simp at h
        simp [h]
      · simp at h
        rcases h with h | h
        · simp [h]
        · exact List.mem_cons_of_mem x (ih true stdin b h)
    · have ha' : auto = false := by simpa using ha
      subst ha'
      simp only [runBlocks, if_false, Bool.false_eq_true] at h
      by_cases hy : eqIgnoreAsciiCase (rustTrim (readLine stdin).1) ['y']
      · simp only [hy, if_true] at h
        unfold execStep at h
        rcases hw : world x with e | st <;> rw [hw] at h
        · simp at h
          simp [h]
        · simp at h
          rcases h with h | h
          · simp [h]
          · exact List.mem_cons_of_mem x (ih false (readLine stdin).2 b h)
      · simp only [hy, if_false] at h
        simp at h
        rcases h with h | h
        · simp [h]
        · exact List.mem_cons_of_mem x (ih false (readLine stdin).2 b h)

/-- Auto-approve never touches the interactive input. -/
theorem runBlocks_auto_stdin (world : List Char → Except IOErr ExitStat)
    (bs : List (List Char)) : ∀ (stdin : List (List Char)),
      (runBlocks world bs true stdin).stdinLeft = stdin := by
  induction bs with
  | nil => intro stdin; rfl
  | cons b bs ih =>
    intro stdin
    simp only [runBlocks, if_true]
    unfold execStep
    rcases hw : world b with e | st
    · rfl
    · simpa using ih stdin

/-- JSON values, as parsed by serde_json (numbers kept as raw text: none of
the decoded records inspects one). -/
inductive Json where
  | jnull
  | jbool (b : Bool)
  | jnum (raw : List Char)
  | jstr (s : List Char)
  | jarr (elems : List Json)
  | jobj (fields : List (List Char × Json))

/-- JSON insignificant whitespace. -/
def isJsonWs (c : Char) : Bool := c = ' ' || c = '\t' || c = '\n' || c = '\r'

def skipJsonWs (s : List Char) : List Char := s.dropWhile isJsonWs

def hexVal (c : Char) : Option Nat :=
  if '0' ≤ c ∧ c ≤ '9' then some (c.toNat - 48)
  else if 'a' ≤ c ∧ c ≤ 'f' then some (c.toNat - 87)
  else if 'A' ≤ c ∧ c ≤ 'F' then some (c.toNat - 55)
  else none

def parseHex4 : List Char → Option (Nat × List Char)
  | a :: b :: c :: d :: rest =>
    match hexVal a, hexVal b, hexVal c, hexVal d with
    | some x, some y, some z, some w => some ((((x * 16 + y) * 16 + z) * 16 + w), rest)
    | _, _, _, _ => none
  | _ => none

/-- Single-character JSON string escapes. -/
def escChar (e : Char) : Option Char :=
  if e = '"' then some '"'
  else if e = '\\' then some '\\'
  else if e = '/' then some '/'
  else if e = 'b' then some (Char.ofNat 8)
  else if e = 'f' then some (Char.ofNat 12)
  else if e = 'n' then some '\n'
  else if e = 'r' then some '\r'
  else if e = 't' then some '\t'
  else none

/-- Body of a JSON string after the opening quote, with escape handling,
surrogate-pair decoding and rejection of raw control characters, as in
serde_json. -/
def parseStringBody : Nat → List Char → Option (List Char × List Char)
  | 0, _ => none
  | _, [] => none
  | fuel + 1, c :: rest =>
    if c = '"' then some ([], rest)
    else if c = '\\' then
      match rest with
      | [] => none
      | e :: rest2 =>
        if e = 'u' then
          match parseHex4 rest2 with
          | none => none
          | some (n, r3) =>
            if 0xD800 ≤ n ∧ n ≤ 0xDBFF then
              match r3 with
              | '\\' :: 'u' :: r4 =>
                match parseHex4 r4 with
                | none => none
                | some (m, r5) =>
                  if 0xDC00 ≤ m ∧ m ≤ 0xDFFF then
                    match parseStringBody fuel r5 with
                    | none => none
                    | some (tail, r6) =>
                      some (Char.ofNat (0x10000 + (n - 0xD800) * 0x400 + (m - 0xDC00)) :: tail, r6)
                  else none
              | _ => none
            else if 0xDC00 ≤ n ∧ n ≤ 0xDFFF then none
            else
              match parseStringBody fuel r3 with
              | none => none
              | some (tail, r4) => some (Char.ofNat n :: tail, r4)
        else
          match escChar e with
          | none => none
          | some ch =>
            match parseStringBody fuel rest2 with
            | none => none
            | some (tail, r3) => some (ch :: tail, r3)
    else if c.toNat < 0x20 then none
    else
      match parseStringBody fuel rest with
      | none => none
      | some (tail, r2) => some (c :: tail, r2)

def isDigitCh (c : Char) : Bool := '0' ≤ c ∧ c ≤ '9'

def splitDigits (s : List Char) : List Char × List Char :=
  (s.takeWhile isDigitCh, s.dropWhile isDigitCh)

def parseIntPart : List Char → Option (List Char × List Char)
  | [] => none
  | c :: t =>
    if c = '0' then some ([c], t)
    else if isDigitCh c then
      let (ds, r) := splitDigits t
      some (c :: ds, r)
    else none

def parseFracPart : List Char → Option (List Char × List Char)
  | '.' :: t =>
    let (ds, r) := splitDigits t
    if ds.isEmpty then none else some ('.' :: ds, r)
  | s => some ([], s)

def parseExpPart : List Char → Option (List Char × List Char)
  | [] => some ([], [])
  | c :: t =>
    if c = 'e' ∨ c = 'E' then
      let (sgn, t2) : List Char × List Char :=
        match t with
        | '+' :: u => (['+'], u)
        | '-' :: u => (['-'], u)
        | u => ([], u)
      let (ds, r) := splitDigits t2
      if ds.isEmpty then none else some (c :: (sgn ++ ds), r)
    else some ([], c :: t)

/-- JSON number grammar: -? (0 | [1-9][0-9]*) frac? exp?. -/
def parseNumber (s : List Char) : Option (List Char × List Char) :=
  let (sgn, s1) : List Char × List Char :=
    match s with
    | '-' :: t => (['-'], t)
    | t => ([], t)
  match parseIntPart s1 with
  | none => none
  | some (ip, r1) =>
    match parseFracPart r1 with
    | none => none
    | some (fp, r2) =>
      match parseExpPart r2 with
      | none => none
      | some (ep, r3) => some (sgn ++ ip ++ fp ++ ep, r3)

mutual

/-- Recursive-descent JSON value parser (fuel-indexed; the callers always
supply enough fuel, one unit per nesting level). -/
def parseValue : Nat → List Char → Option (Json × List Char)
  | 0, _ => none
  | fuel + 1, s =>
    match skipJsonWs s with
    | [] => none
    | c :: rest =>
      if c = 'n' then
        match rest with
        | 'u' :: 'l' :: 'l' :: r => some (Json.jnull, r)
        | _ => none
      else if c = 't' then
        match rest with
        | 'r' :: 'u' :: 'e' :: r => some (Json.jbool true, r)
        | _ => none
      else if c = 'f' then
        match rest with
        | 'a' :: 'l' :: 's' :: 'e' :: r => some (Json.jbool false, r)
        | _ => none
      else if c = '"' then
        match parseStringBody (rest.length + 1) rest with
        | none => none
        | some (str, r) => some (Json.jstr str, r)
      else if c = '[' then
        match skipJsonWs rest with
        | ']' :: r => some (Json.jarr [], r)
        | _ => parseElems fuel rest
      else if c = '\x7b' then
        match skipJsonWs rest with
        | '\x7d' :: r => some (Json.jobj [], r)
        | _ => parseFields fuel rest
      else
        match parseNumber (c :: rest) with
        | none => none
        | some (raw, r) => some (Json.jnum raw, r)

/-- Non-empty array elements after the opening bracket. -/
def parseElems : Nat → List Char → Option (Json × List Char)
  | 0, _ => none
  | fuel + 1, s =>
    match parseValue fuel s with
    | none => none
    | some (v, r) =>
      match skipJsonWs r with
      | ',' :: r2 =>
        match parseElems fuel r2 with
        | some (Json.jarr vs, r3) => some (Json.jarr (v :: vs), r3)
        | _ => none
      | ']' :: r2 => some (Json.jarr [v], r2)
      | _ => none

/-- Non-empty object fields after the opening brace. -/
def parseFields : Nat → List Char → Option (Json × List Char)
  | 0, _ => none
  | fuel + 1, s =>
    match skipJsonWs s with
    | '"' :: r =>
      match parseStringBody (r.length + 1) r with
      | none => none
      | some (key, r2) =>
        match skipJsonWs r2 with
        | ':' :: r3 =>
          match parseValue fuel r3 with
          | none => none
          | some (v, r4) =>
            match skipJsonWs r4 with
            | ',' :: r5 =>
              match parseFields fuel r5 with
              | some (Json.jobj fs, r6) => some (Json.jobj ((key, v) :: fs), r6)
              | _ => none
            | '\x7d' :: r5 => some (Json.jobj [(key, v)], r5)
            | _ => none
        | _ => none
    | _ => none

end

/-- Parse a complete JSON text: one value, then only whitespace, as
`serde_json::from_slice` requires. -/
def parseJsonText (s : List Char) : Option Json :=
  match parseValue (s.length + 1) s with
  | some (v, rest) => if skipJsonWs rest = [] then some v else none
  | none => none

/-- The `OllamaResponse` of main.rs:61-65: both fields are required (no
serde defaults) and there is no error field.  This is the record type used by
the streaming decode loop. -/
structure OllamaResponseMain where
  response : List Char
  done : Bool
deriving DecidableEq

/-- The `OllamaResponse` of ollama.rs:3-10: `response` and `done` carry
serde defaults, `error` is optional. -/
structure OllamaResponse where
  response : List Char
  done : Bool
  error : Option (List Char)
deriving DecidableEq

/-- Number of occurrences of a field name in a JSON object (serde rejects a
duplicated known field). -/
def keyCount (fs : List (List Char × Json)) (k : List Char) : Nat :=
  (fs.filter (fun f => f.1 == k)).length

/-- First binding of a field name in a JSON object. -/
def lookupKey (fs : List (List Char × Json)) (k : List Char) : Option Json :=
  (fs.find? (fun f => f.1 == k)).map (fun f => f.2)

/-- serde deserialization of main.rs's `OllamaResponse`: an object whose
`response` is a string and `done` a boolean, both present at most once and
both required; unknown fields are ignored. -/
def deserMain (j : Json) : Option OllamaResponseMain :=
  match j with
  | Json.jobj fs =>
    if keyCount fs "response".data ≤ 1 ∧ keyCount fs "done".data ≤ 1 then
      match lookupKey fs "response".data, lookupKey fs "done".data with
      | some (Json.jstr r), some (Json.jbool d) => some ⟨r, d⟩
      | _, _ => none
    else none
  | _ => none

/-- serde deserialization of ollama.rs's `OllamaResponse`: `response`
defaults to "" and `done` to false when absent; `error` is `None` when absent
or null; unknown fields are ignored. -/
def deserOllama (j : Json) : Option OllamaResponse :=
  match j with
  | Json.jobj fs =>
    if keyCount fs "response".data ≤ 1 ∧ keyCount fs "done".data ≤ 1 ∧
        keyCount fs "error".data ≤ 1 then
      match
        (match lookupKey fs "response".data with
         | none => some []
         | some (Json.jstr r) => some r
         | some _ => none),
        (match lookupKey fs "done".data with
         | none => some false
         | some (Json.jbool d) => some d
         | some _ => none),
        (match lookupKey fs "error".data with
         | none => some none
         | some Json.jnull => some none
         | some (Json.jstr e) => some (some e)
         | some _ => none) with
      | some r, some d, some e => some (⟨r, d, e⟩ : OllamaResponse)
      | _, _, _ => none
    else none
  | _ => none

/-- `serde_json::from_slice::<OllamaResponse>` for the main.rs record. -/
def from_slice_main (s : List Char) : Option OllamaResponseMain :=
  (parseJsonText s).bind deserMain

/-- `serde_json::from_slice::<OllamaResponse>` for the ollama.rs record. -/
def from_slice_ollama (s : List Char) : Option OllamaResponse :=
  (parseJsonText s).bind deserOllama

example : from_slice_main "\x7b\"response\":\"hi\",\"done\":true\x7d".data =
    some ⟨"hi".data, true⟩ := by decide
example : from_slice_main "\x7b\"done\":false,\"response\":\" a\\nb\"\x7d".data =
    some ⟨" a\nb".data, false⟩ := by decide
example : from_slice_main "\x7b\"response\":\"hi\"\x7d".data = none := by decide
example : from_slice_main "\x7b\x7d".data = none := by decide
example : from_slice_main "".data = none := by decide
example : from_slice_main "\x7b\"response\":\"a\",\"done\":false,\"error\":\"boom\"\x7d".data =
    some ⟨"a".data, false⟩ := by decide
example : from_slice_ollama "\x7b\x7d".data = some ⟨[], false, none⟩ := by decide
example : from_slice_ollama "\x7b\"error\":\"boom\"\x7d".data =
    some ⟨[], false, some "boom".data⟩ := by decide

/-- The streaming decode loop of main.rs:144-156, over the chunk sequence:
each chunk is parsed whole as one `OllamaResponse`; on success the `response`
text is accumulated and a parsed `done = true` breaks the loop; a chunk that
fails to parse is silently skipped.  Returns the accumulated `full_response`
together with the number of chunks pulled from the stream. -/
def decodeRun : List (List Char) → List Char × Nat
  | [] => ([], 0)
  | c :: cs =>
    match from_slice_main c with
    | some r =>
      if r.done then (r.response, 1)
      else
        let (t, n) := decodeRun cs
        (r.response ++ t, n + 1)
    | none =>
      let (t, n) := decodeRun cs
      (t, n + 1)

/-- Truncate a frame sequence at the first completed record (inclusive). -/
def upToDone : List OllamaResponseMain → List OllamaResponseMain
  | [] => []
  | r :: rs => if r.done then [r] else r :: upToDone rs

/-- `RuntimeError` from error.rs:8-27. -/
inductive RuntimeError where
  | ModelNotFound (model : List Char)
  | ContextOverflow (model : List Char) (tokens : Nat) (maxTokens : Nat)
  | Timeout (model : List Char) (durationSecs : Nat)
  | ConnectionError (msg : List Char)
  | ProviderError (msg : List Char)
  | InvalidConfig (msg : List Char)
  | IoError (msg : List Char)
deriving DecidableEq

/-- `ModelProfile` from model.rs:5-26, restricted to the fields read by
`validate` (the f32 sampling parameters and the i32 sampling knobs are never
consulted by the claims or by validation). -/
structure ModelProfile where
  name : List Char
  context_window : Nat
  max_tokens : Nat
deriving DecidableEq

/-- `ModelProfile::validate` from model.rs:55-77. -/
def ModelProfile.validate (p : ModelProfile) : Except RuntimeError Unit :=
  if p.name = [] then
    Except.error (RuntimeError.InvalidConfig "Model name cannot be empty".data)
  else if p.context_window = 0 then
    Except.error (RuntimeError.InvalidConfig "Context window must be > 0".data)
  else if p.max_tokens = 0 then
    Except.error (RuntimeError.InvalidConfig "Max tokens must be > 0".data)
  else if p.context_window < p.max_tokens then
    Except.error (RuntimeError.InvalidConfig "Max tokens cannot exceed context window".data)
  else
    Except.ok ()

/-- UTF-8 byte size of a character (Rust `str::len` counts bytes). -/
def charUtf8Len (c : Char) : Nat :=
  if c.toNat < 0x80 then 1
  else if c.toNat < 0x800 then 2
  else if c.toNat < 0x10000 then 3
  else 4

/-- Rust `str::len`: the UTF-8 byte length. -/
def strByteLen (s : List Char) : Nat := (s.map charUtf8Len).sum

/-- `CompletionRequest` from runtime.rs:42-51. -/
structure CompletionRequest where
  prompt : List Char
  stream : Bool
  model : ModelProfile
deriving DecidableEq

/-- `CompletionRequest::new` from runtime.rs:55-61. -/
def CompletionRequest.new (prompt : List Char) (model : ModelProfile) : CompletionRequest :=
  ⟨prompt, true, model⟩

/-- Number of `usize` values on the 64-bit targets the crate builds for: the
wrap modulus of release-mode integer arithmetic. -/
def usizeSize : Nat := 2 ^ 64

/-- `CompletionRequest::validate` from runtime.rs:64-78: validate the model,
then reject when the estimated token count exceeds the context window.  The
estimate `(self.prompt.len() / 4) + self.model.max_tokens` is a `usize` sum:
in release builds (the semantics modelled here) it wraps modulo 2^64, hence
the `% usizeSize` on the addition; a debug build would panic on the same
overflow instead.  The division cannot overflow. -/
def CompletionRequest.validate (r : CompletionRequest) : Except RuntimeError Unit :=
  match r.model.validate with
  | Except.error e => Except.error e
  | Except.ok _ =>
    let estimated_tokens := (strByteLen r.prompt / 4 + r.model.max_tokens) % usizeSize
    if r.model.context_window < estimated_tokens then
      Except.error (RuntimeError.ContextOverflow r.model.name estimated_tokens
        r.model.context_window)
    else
      Except.ok ()

/-- `LocalRuntime::generate` from runtime.rs:160-171, up to the provider
boundary: the provider is an oracle, and the second component records the
requests actually handed to it (empty exactly when it was never invoked). -/
def LocalRuntime.generate {α : Type} (provider : CompletionRequest → Except RuntimeError α)
    (prompt : List Char) (model : ModelProfile) :
    Except RuntimeError α × List CompletionRequest :=
  match model.validate with
  | Except.error e => (Except.error e, [])
  | Except.ok _ =>
    let request := CompletionRequest.new prompt model
    match request.validate with
    | Except.error e => (Except.error e, [])
    | Except.ok _ => (provider request, [request])

/-- `LocalRuntime::generate_stream` from runtime.rs:146-157, with the same
shape as `LocalRuntime.generate` (the bodies are identical up to the provider
method invoked). -/
def LocalRuntime.generate_stream {β : Type}
    (provider : CompletionRequest → Except RuntimeError β)
    (prompt : List Char) (model : ModelProfile) :
    Except RuntimeError β × List CompletionRequest :=
  match model.validate with
  | Except.error e => (Except.error e, [])
  | Except.ok _ =>
    let request := CompletionRequest.new prompt model
    match request.validate with
    | Except.error e => (Except.error e, [])
    | Except.ok _ => (provider request, [request])

/-- `Except.isOk`, spelled out for this development. -/
def exceptOk {ε α : Type} : Except ε α → Bool
  | Except.ok _ => true
  | Except.error _ => false

theorem modelValidate_ok_conditions {p : ModelProfile} (h : exceptOk p.validate = true) :
    p.name ≠ [] ∧ p.context_window ≠ 0 ∧ p.max_tokens ≠ 0 ∧
      p.max_tokens ≤ p.context_window := by
  unfold ModelProfile.validate at h
  split_ifs at h with h1 h2 h3 h4
  · exact absurd h (by simp [exceptOk])
  · exact absurd h (by simp [exceptOk])
  · exact absurd h (by simp [exceptOk])
  · exact absurd h (by simp [exceptOk])
  · exact ⟨h1, h2, h3, by omega⟩

/-- Concrete subprocess oracles used by witnesses: every launch succeeds with
exit code 0, exit code 1, or fails to launch, respectively. -/
def okWorld : List Char → Except IOErr ExitStat := fun _ => Except.ok ⟨some 0⟩

def exitOneWorld : List Char → Except IOErr ExitStat := fun _ => Except.ok ⟨some 1⟩

def failWorld : List Char → Except IOErr ExitStat := fun _ =>
  Except.error "spawn failed".data

/-- C1: for every response text, the block extractor returns exactly the
fenced blocks whose language tag has first whitespace-delimited token empty,
"bash" or "sh" (case-sensitive), in their original document order — i.e. it
is the shell-tag filter of the full fenced-block scan — and only extracted
blocks are ever offered for execution by the agent loop. -/
theorem c1_extractor_shell_filter : ∀ (r : String),
    extract_commands r =
      ((scanBlocks r).filter (fun b => shellTag b.1)).map (fun b => String.mk b.2) ∧
    ∀ (world : List Char → Except IOErr ExitStat) (autoApprove : Bool)
      (stdin : List (List Char)) (b : List Char),
      b ∈ (extract_and_execute_commands world r autoApprove stdin).offered →
        String.mk b ∈ extract_commands r := by
  intro r
  constructor
  · have h := extractLoop_eq_filter_scanLoop (rustLines r.data) false [] []
    rw [show rustTrim ([] : List Char) = [] from rfl] at h
    unfold extract_commands scanBlocks
    rw [h, List.map_map]
    rfl
  · intro world autoApprove stdin b hb
    unfold extract_and_execute_commands at hb
    have hmem := runBlocks_offered_sub world
      (extractLoop (rustLines r.data) false [] []) autoApprove stdin b hb
    exact List.mem_map_of_mem String.mk hmem

/-- Witness for C1 at a concrete response, oracle and input. -/
theorem c1_extractor_shell_filter_witness :
    "ls\n".data ∈
      (extract_and_execute_commands okWorld "```bash\nls\n```" true []).offered ∧
    String.mk "ls\n".data ∈ extract_commands "```bash\nls\n```" :=
  ⟨by decide, (c1_extractor_shell_filter "```bash\nls\n```").2 okWorld true []
    "ls\n".data (by decide)⟩

/-- A complete streamed record, as used to refute C2. -/
def c2record : List Char := "\x7b\"response\":\"hi\",\"done\":true\x7d".data

/-- Counterexample to C2 as stated: splitting one record at byte offset 5
changes the accumulated text (the two fragments each fail to parse and are
silently dropped), so decoding is not invariant under re-chunking. -/
theorem c2_split_counterexample :
    (decodeRun [c2record.take 5, c2record.drop 5]).1 ≠ (decodeRun [c2record]).1 ∧
    (decodeRun [c2record]).1 = "hi".data ∧
    (decodeRun [c2record.take 5, c2record.drop 5]).1 = [] := by decide

/-- C2 (amended): the decode loop of main.rs parses each chunk independently
as one complete record and silently drops chunks that fail to parse; the
accumulated text is exactly the concatenation of the `response` fields of the
parseable chunks up to and including the first parsed `done = true` record.
The reconstruction invariant of the claim therefore holds only when the chunk
boundaries coincide with record boundaries, not for arbitrary splits. -/
theorem c2_decode_chunkwise (cs : List (List Char)) :
    (decodeRun cs).1 =
      ((upToDone (cs.filterMap from_slice_main)).map (fun r => r.response)).flatten := by
  induction cs with
  | nil => rfl
  | cons c cs ih =>
    rcases h : from_slice_main c with _ | r
    · simpa [decodeRun, h, List.filterMap_cons, upToDone] using ih
    · by_cases hd : r.done
      · simp [decodeRun, h, hd, List.filterMap_cons, upToDone]
      · simp [decodeRun, h, hd, List.filterMap_cons, upToDone, ih]

/-- Counterexample to C3 as stated: when the first block's subprocess cannot
be launched, the loop returns the error and the second block is never offered
to the approval gate, contradicting "does not return an error ... the loop
proceeds to offer the next block". -/
theorem c3_launch_abort_counterexample :
    (runBlocks failWorld ["echo one\n".data, "echo two\n".data] true []).offered =
      ["echo one\n".data] ∧
    (runBlocks failWorld ["echo one\n".data, "echo two\n".data] true []).err =
      some "spawn failed".data := by decide

/-- C3 (amended): a launched subprocess that exits non-zero or abnormally is
reported with a false success flag and the loop proceeds to the remaining
blocks unchanged; but a failure to launch the subprocess at all propagates an
error out of the loop, aborting the remaining blocks. -/
theorem c3_execution_nonfatal :
    ∀ (world : List Char → Except IOErr ExitStat) (b : List Char)
      (bs stdin : List (List Char)) (st : ExitStat) (e : IOErr),
      (world b = Except.ok st →
        runBlocks world (b :: bs) true stdin =
          ⟨b :: (runBlocks world bs true stdin).offered,
           b :: (runBlocks world bs true stdin).attempts,
           (b, st.code == some 0) :: (runBlocks world bs true stdin).reports,
           (runBlocks world bs true stdin).stdinLeft,
           (runBlocks world bs true stdin).err⟩) ∧
      (world b = Except.error e →
        runBlocks world (b :: bs) true stdin = ⟨[b], [b], [], stdin, some e⟩) := by
  intro world b bs stdin st e
  constructor
  · intro h
    simp only [runBlocks, if_true, execStep, h]
  · intro h
    simp only [runBlocks, if_true, execStep, h]

/-- Witness for C3 at a concrete non-zero exit: the report carries a false
success flag and the loop continues. -/
theorem c3_execution_nonfatal_witness :
    exitOneWorld "x".data = Except.ok ⟨some 1⟩ ∧
    runBlocks exitOneWorld ["x".data] true [] =
      ⟨"x".data :: (runBlocks exitOneWorld [] true []).offered,
       "x".data :: (runBlocks exitOneWorld [] true []).attempts,
       ("x".data, (⟨some 1⟩ : ExitStat).code == some 0) ::
         (runBlocks exitOneWorld [] true []).reports,
       (runBlocks exitOneWorld [] true []).stdinLeft,
       (runBlocks exitOneWorld [] true []).err⟩ :=
  ⟨rfl, (c3_execution_nonfatal exitOneWorld "x".data [] [] ⟨some 1⟩ []).1 rfl⟩

/-- C4: with the interactive policy, a block's subprocess launch is attempted
exactly when the line read, trimmed and compared ASCII-case-insensitively,
equals "y"; any other input leaves the attempt list untouched (the block is
skipped) while the block was still offered; with auto-approve the interactive
input is never read. -/
theorem c4_approval_semantics :
    ∀ (world : List Char → Except IOErr ExitStat) (b : List Char)
      (bs : List (List Char)) (input : List Char) (rest stdin : List (List Char)),
      (eqIgnoreAsciiCase (rustTrim input) ['y'] = true →
        ∃ t, (runBlocks world (b :: bs) false (input :: rest)).attempts = b :: t) ∧
      (eqIgnoreAsciiCase (rustTrim input) ['y'] = false →
        (runBlocks world (b :: bs) false (input :: rest)).attempts =
          (runBlocks world bs false rest).attempts ∧
        (runBlocks world (b :: bs) false (input :: rest)).offered =
          b :: (runBlocks world bs false rest).offered) ∧
      (runBlocks world bs true stdin).stdinLeft = stdin := by
  intro world b bs input rest stdin
  refine ⟨?_, ?_, runBlocks_auto_stdin world bs stdin⟩
  · intro hy
    simp only [runBlocks, if_false, Bool.false_eq_true, readLine, hy, if_true]
    unfold execStep
    rcases hw : world b with e | st
    · exact ⟨[], rfl⟩
    · exact ⟨(runBlocks world bs false rest).attempts, rfl⟩
  · intro hy
    simp [runBlocks, readLine, hy]

/-- Witness for C4: input "y" (with its newline) approves a concrete block. -/
theorem c4_approval_semantics_witness :
    eqIgnoreAsciiCase (rustTrim "Y\n".data) ['y'] = true ∧
    ∃ t, (runBlocks okWorld ["ls\n".data] false ["Y\n".data]).attempts =
      "ls\n".data :: t :=
  ⟨by decide, (c4_approval_semantics okWorld "ls\n".data [] "Y\n".data [] []).1
    (by decide)⟩

/-- A streamed record carrying a non-empty error field, and its successor,
used to refute C5. -/
def c5errRecord : List Char :=
  "\x7b\"response\":\"a\",\"done\":false,\"error\":\"boom\"\x7d".data

def c5nextRecord : List Char := "\x7b\"response\":\"b\",\"done\":true\x7d".data

/-- Counterexample to C5 as stated: the first record carries the non-empty
error "boom" (exhibited through the ollama.rs record type, which does declare
the field), yet the decode loop of main.rs pulls and consumes the following
chunk as well — it neither emits an error frame nor stops requesting chunks. -/
theorem c5_error_ignored_counterexample :
    from_slice_ollama c5errRecord = some ⟨"a".data, false, some "boom".data⟩ ∧
    decodeRun [c5errRecord, c5nextRecord] = ("ab".data, 2) := by decide

/-- C5 (amended): the record type used by the decode loop of main.rs has no
error field, so any record parsed with `done = false` — whatever its error
field says — leaves the loop running: the next chunk is still requested and
the record's `response` text is accumulated.  Generation ends early only on a
parsed `done = true` record. -/
theorem c5_nondone_never_stops :
    ∀ (c : List Char) (cs : List (List Char)) (r : OllamaResponseMain),
      from_slice_main c = some r → r.done = false →
      decodeRun (c :: cs) = (r.response ++ (decodeRun cs).1, (decodeRun cs).2 + 1) := by
  intro c cs r h hd
  simp [decodeRun, h, hd]

/-- Witness for C5 at the concrete error-carrying record. -/
theorem c5_nondone_never_stops_witness :
    from_slice_main c5errRecord = some ⟨"a".data, false⟩ ∧
    decodeRun [c5errRecord, c5nextRecord] =
      ("a".data ++ (decodeRun [c5nextRecord]).1, (decodeRun [c5nextRecord]).2 + 1) :=
  ⟨by decide, c5_nondone_never_stops c5errRecord [c5nextRecord]
    ⟨"a".data, false⟩ (by decide) rfl⟩

/-- C6: a response ending while still inside a fenced block behaves exactly
as if the block were explicitly closed at end of input — the pending block is
classified and emitted by the same tag rule, not dropped — and in particular
the unterminated-bash example yields its one block. -/
theorem c6_unterminated_emitted :
    (∀ (ls : List (List Char)), inBlockAfter ls false = true →
      extractLoop (ls ++ [backticks3]) false [] [] = extractLoop ls false [] []) ∧
    extract_commands "```bash\necho no-close" = ["echo no-close\n"] :=
  ⟨fun ls h => extractLoop_append_fence ls false [] [] h, by decide⟩

/-- Witness for C6 at a concrete unterminated block. -/
theorem c6_unterminated_emitted_witness :
    inBlockAfter ["```bash".data, "echo no-close".data] false = true ∧
    extractLoop (["```bash".data, "echo no-close".data] ++ [backticks3]) false [] [] =
      extractLoop ["```bash".data, "echo no-close".data] false [] [] :=
  ⟨by decide, c6_unterminated_emitted.1 ["```bash".data, "echo no-close".data] (by decide)⟩

/-- C7: extracting the single bash block yields exactly its interior; in
general, for any interior lines (none of which is a fence marker), the
emitted content is every interior line verbatim, each terminated by one
newline — fence lines stripped, no trimming of the interior. -/
theorem c7_content_fidelity :
    extract_commands "```bash\necho hello\n```" = ["echo hello\n"] ∧
    ∀ (body : List (List Char)), (∀ l ∈ body, isFenceLine l = false) →
      extractLoop ("```bash".data :: body ++ [backticks3]) false [] [] =
        [(body.map (fun l => l ++ ['\n'])).flatten] := by
  constructor
  · decide
  · intro body hbody
    have hfence : isFenceLine "```bash".data = true := by decide
    have hlang : stripTicks (rustTrim "```bash".data) = "bash".data := by decide
    have hshell : isShellToken "bash".data = true := by decide
    simp only [extractLoop, hfence, if_true, Bool.false_eq_true, if_false, hlang]
    simpa using extractLoop_body_content body "bash".data [] hbody hshell

/-- Witness for C7 at a concrete two-line body with leading whitespace. -/
theorem c7_content_fidelity_witness :
    (∀ l ∈ ["  indented".data, "echo a".data], isFenceLine l = false) ∧
    extractLoop ("```bash".data :: ["  indented".data, "echo a".data] ++ [backticks3])
        false [] [] =
      [(["  indented".data, "echo a".data].map (fun l => l ++ ['\n'])).flatten] :=
  ⟨by decide, c7_content_fidelity.2 ["  indented".data, "echo a".data] (by decide)⟩

/-- Counterexample to C8 as stated: the record type actually used by the
decode loop (main.rs:61-65) rejects an object carrying only an error field,
and even the empty object, because `response` and `done` carry no serde
defaults there. -/
theorem c8_required_fields_counterexample :
    from_slice_main "\x7b\"error\":\"boom\"\x7d".data = none ∧
    from_slice_main "\x7b\x7d".data = none := by decide

/-- Fields of a record matching the optional-field shape of the claim, in
canonical order, each present or absent. -/
def mkFields (r? : Option (List Char)) (d? : Option Bool) (e? : Option (List Char)) :
    List (List Char × Json) :=
  (match r? with | some r => [("response".data, Json.jstr r)] | none => []) ++
  (match d? with | some d => [("done".data, Json.jbool d)] | none => []) ++
  (match e? with | some e => [("error".data, Json.jstr e)] | none => [])

/-- C8 (amended): the ollama.rs record accepts every object matching
the optional-field shape, with `response` defaulting to the empty
string, `done` to false, and `error` to absent — a record carrying only an
error field included; the main.rs record used by the decode loop instead
succeeds exactly when both `response` and `done` are present. -/
theorem c8_field_defaults :
    ∀ (r? : Option (List Char)) (d? : Option Bool) (e? : Option (List Char)),
      deserOllama (Json.jobj (mkFields r? d? e?)) =
        some ⟨r?.getD [], d?.getD false, e?⟩ ∧
      deserMain (Json.jobj (mkFields r? d? e?)) =
        (match r?, d? with
         | some r, some d => some ⟨r, d⟩
         | _, _ => none) := by
  intro r? d? e?
  rcases r? with _ | r <;> rcases d? with _ | d <;> rcases e? with _ | e <;>
    exact ⟨rfl, rfl⟩

/-- C9: every string returned by the block extractor is empty or ends with a
newline (it is a concatenation of newline-terminated lines), for blocks
closed by a fence and for the implicitly closed final block alike. -/
theorem c9_newline_terminated :
    ∀ (r : String) (s : String), s ∈ extract_commands r →
      s = "" ∨ ∃ t : String, s = t ++ "\n" := by
  intro r s hs
  unfold extract_commands at hs
  rcases List.mem_map.mp hs with ⟨l, hl, rfl⟩
  rcases extractLoop_endsNl (rustLines r.data) false [] [] (Or.inl rfl) l hl with h | ⟨t, ht⟩
  · subst h
    exact Or.inl rfl
  · subst ht
    exact Or.inr ⟨String.mk t, rfl⟩

/-- Witness for C9 at a concrete extracted block. -/
theorem c9_newline_terminated_witness :
    ("echo hi\n" : String) ∈ extract_commands "```bash\necho hi\n```" ∧
    (("echo hi\n" : String) = "" ∨ ∃ t : String, ("echo hi\n" : String) = t ++ "\n") :=
  ⟨by decide, c9_newline_terminated "```bash\necho hi\n```" "echo hi\n" (by decide)⟩

/-- A model profile at the usize boundary: it passes ModelProfile::validate
(non-empty name, non-zero fields, max_tokens equal to the context window),
with context_window = max_tokens = usize::MAX. -/
def wrapProfile : ModelProfile := ⟨"x".data, 2 ^ 64 - 1, 2 ^ 64 - 1⟩

/-- A provider double that always succeeds. -/
def okProv : CompletionRequest → Except RuntimeError Unit :=
  fun _ => Except.ok ()

/-- Counterexample to C10 as stated: with a 4-byte prompt and max_tokens =
context_window = usize::MAX, the estimated token count prompt.len()/4 +
max_tokens (as the claim states it, the mathematical sum) exceeds the context
window, yet the usize sum computed at runtime.rs:68 wraps to 0, so the check
passes and both entry points invoke the provider (one request is issued) and
return its successful result instead of an error. -/
theorem c10_wrap_counterexample :
    wrapProfile.context_window <
      strByteLen "abcd".data / 4 + wrapProfile.max_tokens ∧
    (LocalRuntime.generate okProv "abcd".data wrapProfile).2 =
      [CompletionRequest.new "abcd".data wrapProfile] ∧
    exceptOk (LocalRuntime.generate okProv "abcd".data wrapProfile).1 = true ∧
    (LocalRuntime.generate_stream okProv "abcd".data wrapProfile).2 =
      [CompletionRequest.new "abcd".data wrapProfile] := by decide

/-- C10 (amended): both LocalRuntime entry points return an error and never
invoke the provider whenever the profile is invalid (empty name, zero context
window, zero max_tokens, max_tokens above the context window) or the
estimated token count as the program computes it — the usize sum
prompt.len()/4 + max_tokens, wrapping modulo 2^64 — exceeds the context
window. -/
theorem c10_validation_gate_wrapped :
    ∀ {α β : Type} (prov : CompletionRequest → Except RuntimeError α)
      (provStream : CompletionRequest → Except RuntimeError β)
      (prompt : List Char) (m : ModelProfile),
      (m.name = [] ∨ m.context_window = 0 ∨ m.max_tokens = 0 ∨
        m.context_window < m.max_tokens ∨
        m.context_window < (strByteLen prompt / 4 + m.max_tokens) % usizeSize) →
      exceptOk (LocalRuntime.generate prov prompt m).1 = false ∧
      (LocalRuntime.generate prov prompt m).2 = [] ∧
      exceptOk (LocalRuntime.generate_stream provStream prompt m).1 = false ∧
      (LocalRuntime.generate_stream provStream prompt m).2 = [] := by
  intro α β prov provStream prompt m hbad
  rcases hv : m.validate with e | u
  · unfold LocalRuntime.generate LocalRuntime.generate_stream
    rw [hv]
    exact ⟨rfl, rfl, rfl, rfl⟩
  · have hok := modelValidate_ok_conditions (p := m) (by rw [hv]; rfl)
    have hover : m.context_window <
        (strByteLen prompt / 4 + m.max_tokens) % usizeSize := by
      rcases hbad with h | h | h | h | h
      · exact absurd h hok.1
      · exact absurd h hok.2.1
      · exact absurd h hok.2.2.1
      · omega
      · exact h
    have hreq : (CompletionRequest.new prompt m).validate =
        Except.error (RuntimeError.ContextOverflow m.name
          ((strByteLen prompt / 4 + m.max_tokens) % usizeSize) m.context_window) := by
      unfold CompletionRequest.validate CompletionRequest.new
      rw [show (⟨prompt, true, m⟩ : CompletionRequest).model = m from rfl, hv]
      simp [hover]
    unfold LocalRuntime.generate LocalRuntime.generate_stream
    rw [hv]
    simp [hreq, exceptOk]

/-- A profile and prompt whose estimate overflows the context window without
wrapping (12 bytes / 4 + 8 = 11 > 10), in the shape of the repository's own
unit test (runtime.rs:275-280), and a provider double for the witness. -/
def overflowProfile : ModelProfile := ⟨"m".data, 10, 8⟩

def nullProv : CompletionRequest → Except RuntimeError Unit :=
  fun _ => Except.error (RuntimeError.ProviderError [])

/-- Witness for C10 at the concrete overflowing request: a 12-byte prompt
against a 10-token context window with max_tokens 8. -/
theorem c10_validation_gate_wrapped_witness :
    (overflowProfile.name = [] ∨ overflowProfile.context_window = 0 ∨
      overflowProfile.max_tokens = 0 ∨
      overflowProfile.context_window < overflowProfile.max_tokens ∨
      overflowProfile.context_window <
        (strByteLen "abcdabcdabcd".data / 4 + overflowProfile.max_tokens) %
          usizeSize) ∧
    (exceptOk
        (LocalRuntime.generate nullProv "abcdabcdabcd".data overflowProfile).1 =
      false ∧
     (LocalRuntime.generate nullProv "abcdabcdabcd".data overflowProfile).2 = [] ∧
     exceptOk
        (LocalRuntime.generate_stream nullProv "abcdabcdabcd".data
          overflowProfile).1 = false ∧
     (LocalRuntime.generate_stream nullProv "abcdabcdabcd".data
        overflowProfile).2 = []) :=
  ⟨by decide, c10_validation_gate_wrapped nullProv nullProv "abcdabcdabcd".data
    overflowProfile (by decide)⟩
